import Mathlib

/-!
# Verification of the zen_gdk strided view layer

Shallow embedding of the stride-based view/iterator subsystem of zen_gdk
(`include/force/vector_view.hpp`, `include/force/matrix_view.hpp`,
`include/force/vector.hpp`, `include/force/matrix.hpp`,
`include/fmath/tensor_iterator.hpp`, `include/fmath/tensor_view.hpp`).

Pointers are modelled as element offsets (`Int`) into an abstract memory
`Mem : Int → Int`; pointer arithmetic on `Ty*` is integer arithmetic on
these offsets.  `std::size_t`/`std::ptrdiff_t` intermediate values that the
source mixes (e.g. `1 - view.length()` computed in `size_t`) wrap modulo
2^64 in C++ and are converted back to `ptrdiff_t`; since both directions of
that round trip are value-preserving modulo 2^64 we model the net result
with plain integers, which agrees with the machine behaviour for all
realistic magnitudes.
-/

/-- Abstract memory: value stored at each element address. -/
abbrev Mem := Int → Int

/-- Store `x` at address `a`. -/
def Mem.write (m : Mem) (a x : Int) : Mem := fun b => if b = a then x else m b

/-- A memory holding the list `l` at addresses `0, 1, …` (0 elsewhere);
used to model the owned backing array of a container placed at address 0. -/
def listMem (l : List Int) : Mem := fun a => if a < 0 then 0 else l.getD a.toNat 0

namespace force

/-- Model of `force::vector_iterator<Ty>`: fields `mPtr` (the pointer) and `mDelta`
(the stride), from `vector_view.hpp`. -/
structure vector_iterator where
  mPtr : Int
  mDelta : Int
  deriving DecidableEq, Repr

/-- Operation `vector_iterator::operator+(d)`:
`return this_type(mPtr + mDelta * d, mDelta);`. -/
def vector_iterator.add (it : vector_iterator) (d : Int) : vector_iterator :=
  ⟨it.mPtr + it.mDelta * d, it.mDelta⟩

/-- Address read by `vector_iterator::operator[](d)`:
`return *(mPtr + d);` (note: the stride is not applied). -/
def vector_iterator.subscriptAddr (it : vector_iterator) (d : Int) : Int :=
  it.mPtr + d

/-- Model of `force::vector_view<Ty>`: fields `mPtr`, `mLength`, `mDelta`. -/
structure vector_view where
  mPtr : Int
  mLength : Nat
  mDelta : Int
  deriving DecidableEq, Repr

/-- The `vector_view(beg, x, l, d)` constructor:
`mPtr(&beg[x * d]), mDelta(d), mLength(l)`. -/
def vector_view.make (beg x : Int) (l : Nat) (d : Int) : vector_view :=
  ⟨beg + x * d, l, d⟩

/-- Address read by `vector_view::operator[](d)`: `return mPtr[d * mDelta];`. -/
def vector_view.subscriptAddr (v : vector_view) (d : Int) : Int :=
  v.mPtr + d * v.mDelta

/-- Operation `vector_view::begin()`: `return iterator(mPtr, mDelta);`. -/
def vector_view.beginIt (v : vector_view) : vector_iterator :=
  ⟨v.mPtr, v.mDelta⟩

/-- Operation `vector_view::end()`: `return begin() + mLength;`. -/
def vector_view.endIt (v : vector_view) : vector_iterator :=
  v.beginIt.add v.mLength

/-- Address read by `vector_view::back()`: `return *end();`. -/
def vector_view.backAddr (v : vector_view) : Int :=
  v.endIt.mPtr

/-- Operation `vector_view::view(t, l)`: `return vector_view(mPtr, t, l, mDelta);`. -/
def vector_view.view (v : vector_view) (t : Int) (l : Nat) : vector_view :=
  vector_view.make v.mPtr t l v.mDelta

/-- Function `force::reverse_view`:
`return vector_view<Ty>(view.data(), view.delta() * (1 - view.length()), view.length(), -view.delta());`. -/
def reverse_view (v : vector_view) : vector_view :=
  vector_view.make v.mPtr (v.mDelta * (1 - (v.mLength : Int))) v.mLength (-v.mDelta)

/-- Loop body of `vector_view::operator*=(const value_type v)`:
`for (i = 0; i != length(); ++i) { mPtr[i] *= v; }` — raw index `i`, the
stride `mDelta` is not applied.  `mulAssignScalarLoop b c n m` is the memory
after the first `n` iterations. -/
def mulAssignScalarLoop (base c : Int) : Nat → Mem → Mem
  | 0, m => m
  | n + 1, m =>
      let p := mulAssignScalarLoop base c n m
      p.write (base + n) (p (base + n) * c)

/-- Operator `vector_view::operator*=(const value_type v)`; returns `*this` (whose
fields the body never touches) together with the mutated memory. -/
def vector_view.mulAssignScalar (v : vector_view) (c : Int) (m : Mem) :
    vector_view × Mem :=
  (v, mulAssignScalarLoop v.mPtr c v.mLength m)

/-- Operator `vector_view::operator+=(const vector_view v)`:
`for (i = 0; i != length(); ++i) { mPtr[i] += v[i]; }`
(destination cell `mPtr + i`, source read through `v`'s `operator[]`). -/
def addAssignLoop (v w : vector_view) : Nat → Mem → Mem
  | 0, m => m
  | n + 1, m =>
      let p := addAssignLoop v w n m
      p.write (v.mPtr + n) (p (v.mPtr + n) + p (w.subscriptAddr n))

/-- Operator `vector_view::operator-=(const vector_view v)` — its body is
`mPtr[i] += v[i]`, identical to `operator+=`. -/
def subAssignLoop (v w : vector_view) : Nat → Mem → Mem
  | 0, m => m
  | n + 1, m =>
      let p := subAssignLoop v w n m
      p.write (v.mPtr + n) (p (v.mPtr + n) + p (w.subscriptAddr n))

/-- Operator `vector_view::operator*=(const vector_view v)` — its body is
`mPtr[i] += v[i]`, identical to `operator+=`. -/
def mulAssignLoop (v w : vector_view) : Nat → Mem → Mem
  | 0, m => m
  | n + 1, m =>
      let p := mulAssignLoop v w n m
      p.write (v.mPtr + n) (p (v.mPtr + n) + p (w.subscriptAddr n))

/-- Operator `vector_view::operator/=(const vector_view v)` — its body is
`mPtr[i] += v[i]`, identical to `operator+=`. -/
def divAssignLoop (v w : vector_view) : Nat → Mem → Mem
  | 0, m => m
  | n + 1, m =>
      let p := divAssignLoop v w n m
      p.write (v.mPtr + n) (p (v.mPtr + n) + p (w.subscriptAddr n))

/-- Operator `vector_view::operator+=(const vector_view v)` run for
`length()` iterations; returns `*this` and the mutated memory. -/
def vector_view.addAssignV (v w : vector_view) (m : Mem) : vector_view × Mem :=
  (v, addAssignLoop v w v.mLength m)

/-- Operator `vector_view::operator-=(const vector_view v)` run for
`length()` iterations; returns `*this` and the mutated memory. -/
def vector_view.subAssignV (v w : vector_view) (m : Mem) : vector_view × Mem :=
  (v, subAssignLoop v w v.mLength m)

/-- Operator `vector_view::operator*=(const vector_view v)` run for
`length()` iterations; returns `*this` and the mutated memory. -/
def vector_view.mulAssignV (v w : vector_view) (m : Mem) : vector_view × Mem :=
  (v, mulAssignLoop v w v.mLength m)

/-- Operator `vector_view::operator/=(const vector_view v)` run for
`length()` iterations; returns `*this` and the mutated memory. -/
def vector_view.divAssignV (v w : vector_view) (m : Mem) : vector_view × Mem :=
  (v, divAssignLoop v w v.mLength m)

/-- Model of `force::matrix_view<Ty>`: fields `mDeltaY, mDeltaX, mPtr, mWidth, mHeight`. -/
structure matrix_view where
  mDeltaY : Int
  mDeltaX : Int
  mPtr : Int
  mWidth : Nat
  mHeight : Nat
  deriving DecidableEq, Repr

/-- The `matrix_view(p, x, y, w, h, dy, dx)` constructor:
`mDeltaY(dy), mDeltaX(dx), mPtr(&p[y * dy + x * dx]), mWidth(w), mHeight(h)`. -/
def matrix_view.make (p x y : Int) (w h : Nat) (dy dx : Int) : matrix_view :=
  ⟨dy, dx, p + y * dy + x * dx, w, h⟩

/-- Address read by `matrix_view::operator[](std::ptrdiff_t i)`:
`return mPtr[i];` (no stride applied). -/
def matrix_view.flatAddr (v : matrix_view) (i : Int) : Int :=
  v.mPtr + i

/-- Address read by `matrix_view::operator[](const point_type p)`:
`return mPtr[p[1] * mDeltaY + p[0] * mDeltaX];`. -/
def matrix_view.pointAddr (v : matrix_view) (p0 p1 : Int) : Int :=
  v.mPtr + p1 * v.mDeltaY + p0 * v.mDeltaX

/-- Operation `matrix_view::row_at(i)`: `return row_view(mPtr + i * mDeltaY, 0, mWidth, mDeltaX);`. -/
def matrix_view.row_at (v : matrix_view) (i : Int) : vector_view :=
  vector_view.make (v.mPtr + i * v.mDeltaY) 0 v.mWidth v.mDeltaX

/-- Operation `matrix_view::view(tx, ty, w, h)`:
`return matrix_view(mPtr, tx, ty, w, h, mDeltaY, mDeltaX);`. -/
def matrix_view.view (v : matrix_view) (tx ty : Int) (w h : Nat) : matrix_view :=
  matrix_view.make v.mPtr tx ty w h v.mDeltaY v.mDeltaX

/-- Function `force::transpose_view`:
`return matrix_view<Ty>(view.data(), 0, 0, view.height(), view.width(), view.col_delta(), view.row_delta());`. -/
def transpose_view (v : matrix_view) : matrix_view :=
  matrix_view.make v.mPtr 0 0 v.mHeight v.mWidth v.mDeltaX v.mDeltaY

/-- Function `force::reverse_row_view`:
`return matrix_view<Ty>(view.data(), 1 - view.width(), 0, view.width(), view.height(), view.row_delta(), -view.col_delta());`. -/
def reverse_row_view (v : matrix_view) : matrix_view :=
  matrix_view.make v.mPtr (1 - (v.mWidth : Int)) 0 v.mWidth v.mHeight v.mDeltaY (-v.mDeltaX)

/-- Function `force::reverse_col_view`:
`return matrix_view<Ty>(view.data(), 0, 1 - view.height(), view.width(), view.height(), -view.row_delta(), view.col_delta());`. -/
def reverse_col_view (v : matrix_view) : matrix_view :=
  matrix_view.make v.mPtr 0 (1 - (v.mHeight : Int)) v.mWidth v.mHeight (-v.mDeltaY) v.mDeltaX

/-- One row of `matrix_view::operator*=(const value_type v)`:
`std::ranges::for_each(row_at(i), [v](auto& k) {k *= v; })` walks the row
view's iterators (`iterator(mPtr, mDelta)` advanced by the stride), so the
`j`-th iteration multiplies the cell at `row base + j * mDeltaX`. -/
def rowForEachMul (r : vector_view) (c : Int) : Nat → Mem → Mem
  | 0, m => m
  | n + 1, m =>
      let p := rowForEachMul r c n m
      p.write (r.subscriptAddr n) (p (r.subscriptAddr n) * c)

/-- Row loop of `matrix_view::operator*=(const value_type v)`:
`for (i = 0; i != mHeight; ++i) { std::ranges::for_each(row_at(i), …); }`. -/
def matMulScalarLoop (v : matrix_view) (c : Int) : Nat → Mem → Mem
  | 0, m => m
  | i + 1, m => rowForEachMul (v.row_at i) c v.mWidth (matMulScalarLoop v c i m)

/-- Operator `matrix_view::operator*=(const value_type v)`; returns `*this` (whose
fields the body never touches) together with the mutated memory. -/
def matrix_view.mulAssignScalar (v : matrix_view) (c : Int) (m : Mem) :
    matrix_view × Mem :=
  (v, matMulScalarLoop v c v.mHeight m)

/-- Owned backing array of `force::vector<Ty, N>`: the region
`[base, base + N)` of the ambient memory, `mData[i]` living at `base + i`. -/
structure vectorN where
  base : Int
  dims : Nat
  deriving DecidableEq, Repr

/-- Address read by `vector<Ty, N>::back()`: `return mData[num_dimensions];`. -/
def vectorN.backAddr (c : vectorN) : Int := c.base + c.dims

/-- Address of the last element the container owns (`mData[N - 1]`). -/
def vectorN.lastAddr (c : vectorN) : Int := c.base + c.dims - 1

/-- The addresses the container owns. -/
def vectorN.owns (c : vectorN) (a : Int) : Prop := c.base ≤ a ∧ a < c.base + c.dims

instance (c : vectorN) (a : Int) : Decidable (c.owns a) := by
  unfold vectorN.owns; infer_instance

/-- Owned backing array of `force::matrix<Ty, M, N>` (`mData[M * N]`). -/
structure matrixMN where
  base : Int
  rowsM : Nat
  colsN : Nat
  deriving DecidableEq, Repr

/-- Address read by `matrix<Ty, M, N>::back()`: `return mData[num_elements];`
with `num_elements = M * N`. -/
def matrixMN.backAddr (c : matrixMN) : Int := c.base + (c.rowsM * c.colsN : Nat)

/-- The addresses the container owns. -/
def matrixMN.owns (c : matrixMN) (a : Int) : Prop :=
  c.base ≤ a ∧ a < c.base + (c.rowsM * c.colsN : Nat)

instance (c : matrixMN) (a : Int) : Decidable (c.owns a) := by
  unfold matrixMN.owns; infer_instance

/-- Conversion `vector<Ty, N>::operator vector_view()`:
`return vector_view<value_type>(data(), 0, size());` (default stride 1);
the container's array is modelled at address `base`. -/
def vectorNView (base : Int) (n : Nat) : vector_view :=
  vector_view.make base 0 n 1

/-- Constructor `vector<Ty, N>::vector(const vector_view v)`: `std::ranges::copy(v, begin())`
copies, through the view's strided iterator, the values
`mem (mPtr + k * mDelta)` for `k = 0, …, mLength - 1` into the new owned
array, in order. -/
def vectorOfView (v : vector_view) (m : Mem) : List Int :=
  (List.range v.mLength).map fun (k : Nat) => m (v.subscriptAddr (k : Int))

/-- Conversion `matrix<Ty, M, N>::operator matrix_view()`:
`return matrix_view<value_type>(mData, 0, 0, N, M, N);` (col stride defaults
to 1); the container's array is modelled at address `base`. -/
def matrixMNView (base : Int) (M N : Nat) : matrix_view :=
  matrix_view.make base 0 0 N M N 1

/-- Constructor `matrix<Ty, M, N>::matrix(const matrix_view view)`: `copy_view(view, mData)`
walks `row_begin()/row_end()` (stride `mDeltaY`, `mHeight` steps) and for each
row the column iterator from `&i[0]` with stride `mDeltaX`, `mWidth` steps,
appending `mem (mPtr + i * mDeltaY + j * mDeltaX)` to the destination. -/
def matrixOfView (v : matrix_view) (m : Mem) : List Int :=
  (List.range v.mHeight).flatMap fun (i : Nat) =>
    (List.range v.mWidth).map fun (j : Nat) =>
      m (v.mPtr + (i : Int) * v.mDeltaY + (j : Int) * v.mDeltaX)

end force

namespace fmath

/-- Model of `force::math::tensor_iterator<Ty, 1>`: fields `mPtr`, `mFirstStride`. -/
structure tensor_iterator1 where
  mPtr : Int
  mFirstStride : Int
  deriving DecidableEq, Repr

/-- Operation `tensor_iterator<Ty,1>::operator+(d)`:
`return this_type(mPtr + mFirstStride * d, mFirstStride);`. -/
def tensor_iterator1.add (it : tensor_iterator1) (d : Int) : tensor_iterator1 :=
  ⟨it.mPtr + it.mFirstStride * d, it.mFirstStride⟩

/-- Address read by `tensor_iterator<Ty,1>::operator[](d)`:
`return *(mPtr + d);` (the stride is not applied). -/
def tensor_iterator1.subscriptAddr (it : tensor_iterator1) (d : Int) : Int :=
  it.mPtr + d

/-- Model of `force::math::tensor_view<Ty, 1>`: `mPtr` plus
`mLengths[2] = {stride xs, length xl}` (both `difference_type`). -/
structure tensor_view1 where
  mPtr : Int
  xs : Int
  xl : Int
  deriving DecidableEq, Repr

/-- Address read by the inherited `base_tensor_view::operator[](i)`:
`return mPtr[i];` (no stride applied). -/
def tensor_view1.flatAddr (t : tensor_view1) (i : Int) : Int :=
  t.mPtr + i

/-- Operation `tensor_view<Ty,1>::reverse()`:
`ptr += (xs * xl - xs); xs = -xs;`.  Note: the source text destructures
four bindings `[xs, xl, ys, yl]` out of the order-1 view's 2-element
`length()` array and calls a 5-argument constructor, which is ill-formed
C++ if this template member is ever instantiated; we model its evident
intent — negate the stride `xs` and advance the base by `xs * (xl - 1)` —
which is exactly what the (well-formed) order-2 `reverse` does per axis. -/
def tensor_view1.reverse (t : tensor_view1) : tensor_view1 :=
  ⟨t.mPtr + (t.xs * t.xl - t.xs), -t.xs, t.xl⟩

/-- Model of `force::math::tensor_view<Ty, 2>`: `mPtr` plus
`mLengths[4] = {xs, xl, ys, yl}`. -/
structure tensor_view2 where
  mPtr : Int
  xs : Int
  xl : Int
  ys : Int
  yl : Int
  deriving DecidableEq, Repr

/-- Address read by the inherited `base_tensor_view::operator[](i)`:
`return mPtr[i];` (no stride applied). -/
def tensor_view2.flatAddr (t : tensor_view2) (i : Int) : Int :=
  t.mPtr + i

/-- Operation `tensor_view<Ty,2>::reverse(seq)`:
`if (seq & horizontal) { ptr += (xs * xl - xs); xs = -xs; }`
`if (seq & vertical)   { ptr += (ys * yl - ys); ys = -ys; }`;
the two `Bool`s model the two bits of the `access` mask (the default
argument is `horizontal | vertical`, i.e. both `true`). -/
def tensor_view2.reverse (t : tensor_view2) (seqH seqV : Bool) : tensor_view2 :=
  let p1 := cond seqH (t.mPtr + (t.xs * t.xl - t.xs)) t.mPtr
  let xs1 := cond seqH (-t.xs) t.xs
  let p2 := cond seqV (p1 + (t.ys * t.yl - t.ys)) p1
  let ys1 := cond seqV (-t.ys) t.ys
  ⟨p2, xs1, t.xl, ys1, t.yl⟩

end fmath


/-! ## Basic lemmas about the memory model and the loops -/

@[simp] theorem Mem.write_self (m : Mem) (a x : Int) : m.write a x a = x := by
  simp [Mem.write]

theorem Mem.write_other (m : Mem) (a x b : Int) (h : b ≠ a) :
    m.write a x b = m b := by
  simp [Mem.write, h]

open force fmath

theorem mulAssignScalarLoop_spec (base c : Int) (n : Nat) (m : Mem) (a : Int) :
    mulAssignScalarLoop base c n m a =
      if base ≤ a ∧ a < base + n then m a * c else m a := by
  induction n with
  | zero =>
      simp only [mulAssignScalarLoop]
      rw [if_neg (by push_cast; omega)]
  | succ n ih =>
      simp only [mulAssignScalarLoop]
      by_cases ha : a = base + (n : Int)
      · subst ha
        rw [Mem.write_self, ih, if_neg (by omega), if_pos (by push_cast; omega)]
      · rw [Mem.write_other _ _ _ _ ha, ih]
        exact if_congr (by constructor <;> (intro h; push_cast at *; omega)) rfl rfl

theorem row_at_subscriptAddr (v : matrix_view) (i j : Int) :
    (v.row_at i).subscriptAddr j = v.mPtr + i * v.mDeltaY + j * v.mDeltaX := by
  simp only [matrix_view.row_at, vector_view.make, vector_view.subscriptAddr]
  ring

theorem rowForEachMul_untouched (r : vector_view) (c : Int) (n : Nat) (m : Mem) (a : Int)
    (h : ∀ j : Nat, j < n → a ≠ r.subscriptAddr j) :
    rowForEachMul r c n m a = m a := by
  induction n with
  | zero => rfl
  | succ n ih =>
      simp only [rowForEachMul]
      rw [Mem.write_other _ _ _ _ (h n (by omega)), ih (fun j hj => h j (by omega))]

theorem rowForEachMul_touched (r : vector_view) (c : Int) (n : Nat) (m : Mem) (j : Nat)
    (hj : j < n)
    (hinj : ∀ j2 : Nat, j2 < n → r.subscriptAddr j2 = r.subscriptAddr j → j2 = j) :
    rowForEachMul r c n m (r.subscriptAddr j) = m (r.subscriptAddr j) * c := by
  induction n with
  | zero => omega
  | succ n ih =>
      simp only [rowForEachMul]
      by_cases hjn : j = n
      · subst hjn
        rw [Mem.write_self]
        rw [rowForEachMul_untouched r c j m (r.subscriptAddr (j : Int))
          (fun j2 hj2 heq => absurd (hinj j2 (by omega) heq.symm) (by omega))]
      · have hne : r.subscriptAddr (j : Int) ≠ r.subscriptAddr (n : Int) := by
          intro heq
          exact hjn (hinj n (by omega) heq.symm).symm
        rw [Mem.write_other _ _ _ _ hne]
        exact ih (by omega) (fun j2 hj2 heq => hinj j2 (by omega) heq)

theorem matMulScalarLoop_untouched (v : matrix_view) (c : Int) (k : Nat) (m : Mem) (a : Int)
    (h : ∀ i : Nat, i < k → ∀ j : Nat, j < v.mWidth →
      a ≠ v.mPtr + i * v.mDeltaY + j * v.mDeltaX) :
    matMulScalarLoop v c k m a = m a := by
  induction k with
  | zero => rfl
  | succ k ih =>
      simp only [matMulScalarLoop]
      rw [rowForEachMul_untouched _ _ _ _ _
        (fun j hj => by rw [row_at_subscriptAddr]; exact h k (by omega) j hj)]
      exact ih (fun i hi j hj => h i (by omega) j hj)

theorem matMulScalarLoop_touched (v : matrix_view) (c : Int) (k : Nat) (m : Mem)
    (i j : Nat) (hi : i < k) (hj : j < v.mWidth)
    (hinj : ∀ i2 : Nat, i2 < k → ∀ j2 : Nat, j2 < v.mWidth →
      v.mPtr + i2 * v.mDeltaY + j2 * v.mDeltaX = v.mPtr + i * v.mDeltaY + j * v.mDeltaX →
      i2 = i ∧ j2 = j) :
    matMulScalarLoop v c k m (v.mPtr + i * v.mDeltaY + j * v.mDeltaX) =
      m (v.mPtr + i * v.mDeltaY + j * v.mDeltaX) * c := by
  induction k with
  | zero => omega
  | succ k ih =>
      simp only [matMulScalarLoop]
      by_cases hik : i = k
      · subst hik
        rw [show v.mPtr + (i : Int) * v.mDeltaY + (j : Int) * v.mDeltaX =
              (v.row_at (i : Int)).subscriptAddr (j : Int) from (row_at_subscriptAddr v i j).symm]
        rw [rowForEachMul_touched (v.row_at (i : Int)) c v.mWidth _ j hj
          (fun j2 hj2 heq => by
            rw [row_at_subscriptAddr, row_at_subscriptAddr] at heq
            exact (hinj i (by omega) j2 hj2 heq).2)]
        rw [matMulScalarLoop_untouched v c i m _
          (fun i2 hi2 j2 hj2 heq => by
            rw [row_at_subscriptAddr] at heq
            exact absurd (hinj i2 (by omega) j2 hj2 heq.symm).1 (by omega))]
      · have hlt : i < k := by omega
        rw [rowForEachMul_untouched _ _ _ _ _
          (fun j2 hj2 => by
            rw [row_at_subscriptAddr]
            intro heq
            exact absurd (hinj k (by omega) j2 hj2 heq.symm).1 (by omega))]
        exact ih hlt (fun i2 hi2 j2 hj2 heq => hinj i2 (by omega) j2 hj2 heq)

theorem subAssignLoop_eq_addAssignLoop (v w : vector_view) (n : Nat) (m : Mem) :
    subAssignLoop v w n m = addAssignLoop v w n m := by
  induction n with
  | zero => rfl
  | succ n ih => simp only [subAssignLoop, addAssignLoop, ih]

theorem mulAssignLoop_eq_addAssignLoop (v w : vector_view) (n : Nat) (m : Mem) :
    mulAssignLoop v w n m = addAssignLoop v w n m := by
  induction n with
  | zero => rfl
  | succ n ih => simp only [mulAssignLoop, addAssignLoop, ih]

theorem divAssignLoop_eq_addAssignLoop (v w : vector_view) (n : Nat) (m : Mem) :
    divAssignLoop v w n m = addAssignLoop v w n m := by
  induction n with
  | zero => rfl
  | succ n ih => simp only [divAssignLoop, addAssignLoop, ih]

theorem addAssignLoop_untouched (v w : vector_view) (n : Nat) (m : Mem) (a : Int)
    (h : ∀ j : Nat, j < n → a ≠ v.mPtr + j) :
    addAssignLoop v w n m a = m a := by
  induction n with
  | zero => rfl
  | succ n ih =>
      simp only [addAssignLoop]
      rw [Mem.write_other _ _ _ _ (h n (by omega)), ih (fun j hj => h j (by omega))]

theorem addAssignLoop_spec (v w : vector_view) (n : Nat) (m : Mem) (i : Nat)
    (hi : i < n)
    (hsep : ∀ i2 : Nat, i2 < n → ∀ j : Nat, j < i2 → w.subscriptAddr i2 ≠ v.mPtr + j) :
    addAssignLoop v w n m (v.mPtr + i) =
      m (v.mPtr + i) + m (w.subscriptAddr i) := by
  induction n with
  | zero => omega
  | succ n ih =>
      simp only [addAssignLoop]
      by_cases hin : i = n
      · subst hin
        rw [Mem.write_self]
        rw [addAssignLoop_untouched v w i m (v.mPtr + (i : Int))
          (fun j hj => by omega)]
        rw [addAssignLoop_untouched v w i m (w.subscriptAddr (i : Int))
          (fun j hj => hsep i (by omega) j hj)]
      · have hne : v.mPtr + (i : Int) ≠ v.mPtr + (n : Int) := by
          intro heq; omega
        rw [Mem.write_other _ _ _ _ hne]
        exact ih (by omega) (fun i2 hi2 j hj => hsep i2 (by omega) j hj)

theorem range_flatMap_rows (M N : Nat) (f : Nat → Int) :
    (List.range M).flatMap (fun i => (List.range N).map fun j => f (i * N + j)) =
      (List.range (M * N)).map f := by
  induction M with
  | zero => simp
  | succ M ih =>
      rw [List.range_succ, List.flatMap_append, ih]
      rw [show (M + 1) * N = M * N + N by ring, List.range_add, List.map_append,
        List.map_map]
      simp [Function.comp]

theorem listMem_getElem (l : List Int) (k : Nat) (hk : k < l.length) :
    listMem l (k : Int) = l[k] := by
  simp only [listMem]
  rw [if_neg (by omega)]
  simp [List.getD_eq_getElem?_getD, List.getElem?_eq_getElem hk]

/-! ## Claims -/

/-- Claim C1 (code bug).  The claimed reversal contract — new stride `-s`,
new base `b + s*(L-1)` — is implemented by `fmath tensor_view<Ty,1>::reverse`
and by `force::reverse_row_view` (first two conjuncts), but
`force::reverse_view` violates it: its offset argument `delta() * (1 - length())`
is multiplied by the new stride again inside the `vector_view` constructor,
so the new base is `b + s^2*(L-1)`.  At base 0, stride 2, length 3 the code
produces base 8 where the claim requires `0 + 2*(3-1) = 4`. -/
theorem claim_C1 :
    (∀ t : tensor_view1,
      t.reverse.xs = -t.xs ∧ t.reverse.xl = t.xl ∧
      t.reverse.mPtr = t.mPtr + t.xs * (t.xl - 1)) ∧
    (∀ v : matrix_view,
      (reverse_row_view v).mDeltaX = -v.mDeltaX ∧
      (reverse_row_view v).mDeltaY = v.mDeltaY ∧
      (reverse_row_view v).mWidth = v.mWidth ∧
      (reverse_row_view v).mPtr = v.mPtr + v.mDeltaX * ((v.mWidth : Int) - 1)) ∧
    (reverse_view (force.vector_view.mk 0 3 2)).mDelta = -2 ∧
    (reverse_view (force.vector_view.mk 0 3 2)).mLength = 3 ∧
    (reverse_view (force.vector_view.mk 0 3 2)).mPtr = 8 ∧
    (8 : Int) ≠ 0 + 2 * (3 - 1) := by
  refine ⟨fun t => ⟨rfl, rfl, by simp only [tensor_view1.reverse]; ring⟩,
    fun v => ⟨rfl, rfl, rfl, ?_⟩, by decide, by decide, by decide, by decide⟩
  simp only [reverse_row_view, matrix_view.make]
  ring

/-- Claim C2 (code bug).  Double reversal is the identity for the fmath
`tensor_view` views (order 1 and order 2, any axis mask) and for
`force::reverse_row_view`/`reverse_col_view`, but not for
`force::reverse_view`: at base 0, length 2, stride 1 two applications of
`reverse_view` yield base 2 instead of the original base 0. -/
theorem claim_C2 :
    (∀ t : tensor_view1, t.reverse.reverse = t) ∧
    (∀ (t : tensor_view2) (bh bv : Bool), (t.reverse bh bv).reverse bh bv = t) ∧
    (∀ v : matrix_view, reverse_row_view (reverse_row_view v) = v) ∧
    (∀ v : matrix_view, reverse_col_view (reverse_col_view v) = v) ∧
    reverse_view (reverse_view (force.vector_view.mk 0 2 1)) = force.vector_view.mk 2 2 1 ∧
    force.vector_view.mk (2 : Int) 2 1 ≠ force.vector_view.mk 0 2 1 := by
  refine ⟨fun t => ?_, fun t bh bv => ?_, fun v => ?_, fun v => ?_, by decide, by decide⟩
  · cases t
    simp only [tensor_view1.reverse]
    congr 1 <;> ring
  · cases t
    cases bh <;> cases bv <;>
      simp only [tensor_view2.reverse, cond_true, cond_false] <;>
      (try congr 1) <;> (try ring)
  · cases v
    simp only [reverse_row_view, matrix_view.make]
    congr 1 <;> ring
  · cases v
    simp only [reverse_col_view, matrix_view.make]
    congr 1 <;> ring

/-- Claim C3 (code bug).  For both strided iterators, `it + k` does produce
an iterator with base `b + k*s` and unchanged stride, but `it[k]`
dereferences `base + k` — the stride is not applied — so `it[k]` and
`*(it + k)` disagree whenever `s ≠ 1`, although both classes declare
`std::contiguous_iterator_tag`.  Failing input: base 0, stride 2, `k = 1`:
`it[1]` reads address 1 while the claimed address (and `it + 1`) is 2. -/
theorem claim_C3 :
    (∀ (it : vector_iterator) (k : Int),
      (it.add k).mPtr = it.mPtr + k * it.mDelta ∧ (it.add k).mDelta = it.mDelta) ∧
    (∀ (it : tensor_iterator1) (k : Int),
      (it.add k).mPtr = it.mPtr + k * it.mFirstStride ∧
      (it.add k).mFirstStride = it.mFirstStride) ∧
    (force.vector_iterator.mk 0 2).subscriptAddr 1 = 1 ∧
    ((force.vector_iterator.mk 0 2).add 1).mPtr = 2 ∧
    (fmath.tensor_iterator1.mk 0 2).subscriptAddr 1 = 1 ∧
    (1 : Int) ≠ 0 + 1 * 2 := by
  refine ⟨fun it k => ⟨by simp only [vector_iterator.add]; ring, rfl⟩,
    fun it k => ⟨by simp only [tensor_iterator1.add]; ring, rfl⟩,
    by decide, by decide, by decide, by decide⟩

/-- Claim C5 counterexample.  A 1-D fmath view with base 0, stride 2,
length 3 over the buffer `[5, 10, 100]`: flat access `v[1]` per the claim
should read address `0 + 1*2 = 2` (value 100), but
`base_tensor_view::operator[]` reads the raw offset address 1 (value 10). -/
theorem claim_C5_cex :
    (fmath.tensor_view1.mk 0 2 3).flatAddr 1 = 1 ∧
    (0 : Int) + 1 * 2 = 2 ∧
    listMem [5, 10, 100] ((fmath.tensor_view1.mk 0 2 3).flatAddr 1) = 10 ∧
    listMem [5, 10, 100] ((0 : Int) + 1 * 2) = 100 ∧
    (10 : Int) ≠ 100 := by decide

/-- Claim C5 (corrected).  Flat (single-integer) access applies the axis
stride only in `force::vector_view` (`mPtr[d * mDelta]`); in
`force::matrix_view` and in the fmath `base_tensor_view` the flat index is a
raw offset from the base pointer (`mPtr[i]`, stride not applied).
Multi-axis access (`matrix_view::operator[](point)`) computes
`base + Σ index_i * stride_i` as claimed. -/
theorem claim_C5 (bg x y : Int) (w h : Nat) (dy dx : Int)
    (i p0 p1 : Int) (l : Nat) (d ts tl : Int) :
    (force.vector_view.make bg x l d).subscriptAddr i = bg + (x + i) * d ∧
    (force.matrix_view.make bg x y w h dy dx).flatAddr i = bg + y * dy + x * dx + i ∧
    (fmath.tensor_view1.mk bg ts tl).flatAddr i = bg + i ∧
    (fmath.tensor_view2.mk bg ts tl ts tl).flatAddr i = bg + i ∧
    (force.matrix_view.make bg x y w h dy dx).pointAddr p0 p1 =
      bg + (y + p1) * dy + (x + p0) * dx := by
  refine ⟨?_, rfl, rfl, rfl, ?_⟩
  · simp only [vector_view.make, vector_view.subscriptAddr]; ring
  · simp only [matrix_view.make, matrix_view.pointAddr]; ring

/-- Claim C6 (confirmed).  `transpose_view` keeps the base pointer, swaps
the two (stride, length) pairs, and for any indices `(i, j)` the multi-axis
element address of the transpose at `(i, j)` equals the original's at
`(j, i)`; hence a write through one view is observed by a read of the
corresponding cell through the other, with no element copied. -/
theorem claim_C6 (v : matrix_view) (i j x : Int) (m : Mem) :
    (transpose_view v).pointAddr i j = v.pointAddr j i ∧
    (transpose_view v).mPtr = v.mPtr ∧
    (transpose_view v).mDeltaY = v.mDeltaX ∧
    (transpose_view v).mDeltaX = v.mDeltaY ∧
    (transpose_view v).mWidth = v.mHeight ∧
    (transpose_view v).mHeight = v.mWidth ∧
    (m.write ((transpose_view v).pointAddr i j) x) (v.pointAddr j i) = x ∧
    (m.write (v.pointAddr j i) x) ((transpose_view v).pointAddr i j) = x := by
  have haddr : (transpose_view v).pointAddr i j = v.pointAddr j i := by
    simp only [transpose_view, matrix_view.make, matrix_view.pointAddr]
    ring
  have hptr : (transpose_view v).mPtr = v.mPtr := by
    simp only [transpose_view, matrix_view.make]
    ring
  exact ⟨haddr, hptr, rfl, rfl, rfl, rfl,
    by rw [haddr, Mem.write_self], by rw [haddr, Mem.write_self]⟩

/-- Claim C7 (confirmed).  A sub-view `V.view(o, l)` keeps `V`'s stride,
starts at `base + o*stride`, and for `0 ≤ k < l` addresses (and therefore
reads) the same cell as `V[o + k]`; the analogous containment holds for the
2-D `matrix_view::view`. -/
theorem claim_C7 (v : force.vector_view) (o : Int) (l : Nat) (k : Int) (m : Mem)
    (_hk : 0 ≤ k ∧ k < (l : Int)) :
    (v.view o l).subscriptAddr k = v.subscriptAddr (o + k) ∧
    (v.view o l).mDelta = v.mDelta ∧
    (v.view o l).mLength = l ∧
    m ((v.view o l).subscriptAddr k) = m (v.subscriptAddr (o + k)) ∧
    (∀ (mv : matrix_view) (tx ty : Int) (w h : Nat) (i2 j2 : Int),
      (mv.view tx ty w h).pointAddr i2 j2 = mv.pointAddr (tx + i2) (ty + j2)) := by
  have haddr : (v.view o l).subscriptAddr k = v.subscriptAddr (o + k) := by
    simp only [vector_view.view, vector_view.make, vector_view.subscriptAddr]
    ring
  refine ⟨haddr, rfl, rfl, by rw [haddr], fun mv tx ty w h i2 j2 => ?_⟩
  simp only [matrix_view.view, matrix_view.make, matrix_view.pointAddr]
  ring

/-- Witness for C7 at base 0, stride 3, parent length 5, offset 1,
sub-length 2, index 1. -/
theorem claim_C7_witness :
    (0 ≤ (1 : Int) ∧ (1 : Int) < ((2 : Nat) : Int)) ∧
    ((force.vector_view.make 0 0 5 3).view 1 2).subscriptAddr 1 =
      (force.vector_view.make 0 0 5 3).subscriptAddr (1 + 1) :=
  ⟨by decide, (claim_C7 (force.vector_view.make 0 0 5 3) 1 2 1 (fun _ => 0)
    (by decide)).1⟩

/-- Claim C4 counterexample.  A `force::vector_view` with base 0, stride 2,
length 2 over the buffer `[1, 10, 100]`: the view's logical element 1 lives
at address `0 + 1*2 = 2` (value 100), but `operator*=(scalar)` leaves it
unchanged and instead multiplies address 1 (not a logical element, old
value 10, new value 30) — the loop writes `mPtr[i]`, ignoring the stride. -/
theorem claim_C4_cex :
    ((force.vector_view.mk 0 2 2).mulAssignScalar 3 (listMem [1, 10, 100])).2
        ((force.vector_view.mk 0 2 2).subscriptAddr 1) = 100 ∧
    listMem [1, 10, 100] ((force.vector_view.mk 0 2 2).subscriptAddr 1) * 3 = 300 ∧
    ((force.vector_view.mk 0 2 2).mulAssignScalar 3 (listMem [1, 10, 100])).2 1 = 30 ∧
    listMem [1, 10, 100] 1 = 10 ∧
    (100 : Int) ≠ 300 ∧ (30 : Int) ≠ 10 := by decide

/-- Claim C4 (corrected).  In-place scalar multiplication writes through to
the buffer and leaves the view's own fields unchanged, but the cells
touched differ between the two view types: `vector_view::operator*=`
multiplies exactly the contiguous cells `base, …, base + length - 1`
(stride not applied), while `matrix_view::operator*=` multiplies exactly
the logical cells `base + i*mDeltaY + j*mDeltaX` — once each, provided the
logical addressing is injective on in-range indices — and no other cell. -/
theorem claim_C4 (vv : force.vector_view) (c : Int) (m : Mem)
    (mv : force.matrix_view)
    (hinj : ∀ i : Nat, i < mv.mHeight → ∀ j : Nat, j < mv.mWidth →
      ∀ i2 : Nat, i2 < mv.mHeight → ∀ j2 : Nat, j2 < mv.mWidth →
      mv.mPtr + i * mv.mDeltaY + j * mv.mDeltaX =
        mv.mPtr + i2 * mv.mDeltaY + j2 * mv.mDeltaX → i = i2 ∧ j = j2) :
    (vv.mulAssignScalar c m).1 = vv ∧
    (∀ a : Int, (vv.mulAssignScalar c m).2 a =
      if vv.mPtr ≤ a ∧ a < vv.mPtr + vv.mLength then m a * c else m a) ∧
    (mv.mulAssignScalar c m).1 = mv ∧
    (∀ i : Nat, i < mv.mHeight → ∀ j : Nat, j < mv.mWidth →
      (mv.mulAssignScalar c m).2 (mv.mPtr + i * mv.mDeltaY + j * mv.mDeltaX) =
        m (mv.mPtr + i * mv.mDeltaY + j * mv.mDeltaX) * c) ∧
    (∀ a : Int,
      (∀ i : Nat, i < mv.mHeight → ∀ j : Nat, j < mv.mWidth →
        a ≠ mv.mPtr + i * mv.mDeltaY + j * mv.mDeltaX) →
      (mv.mulAssignScalar c m).2 a = m a) := by
  refine ⟨rfl, fun a => mulAssignScalarLoop_spec vv.mPtr c vv.mLength m a, rfl,
    fun i hi j hj => ?_, fun a ha => ?_⟩
  · exact matMulScalarLoop_touched mv c mv.mHeight m i j hi hj
      (fun i2 hi2 j2 hj2 heq => hinj i2 hi2 j2 hj2 i hi j hj heq)
  · exact matMulScalarLoop_untouched mv c mv.mHeight m a ha

/-- Witness for C4: the row-major 2×2 matrix view `dy = 2, dx = 1, base 0`
over `[1, 2, 3, 4]` scaled by 3; the cell `(i, j) = (1, 0)` at address 2
(old value 3) is multiplied. -/
theorem claim_C4_witness :
    (∀ i : Nat, i < 2 → ∀ j : Nat, j < 2 →
      ∀ i2 : Nat, i2 < 2 → ∀ j2 : Nat, j2 < 2 →
      (0 : Int) + i * 2 + j * 1 = 0 + i2 * 2 + j2 * 1 → i = i2 ∧ j = j2) ∧
    ((force.matrix_view.mk 2 1 0 2 2).mulAssignScalar 3 (listMem [1, 2, 3, 4])).2
        ((0 : Int) + ((1 : Nat) : Int) * 2 + ((0 : Nat) : Int) * 1) =
      listMem [1, 2, 3, 4] ((0 : Int) + ((1 : Nat) : Int) * 2 + ((0 : Nat) : Int) * 1) * 3 := by
  have hinj : ∀ i : Nat, i < 2 → ∀ j : Nat, j < 2 →
      ∀ i2 : Nat, i2 < 2 → ∀ j2 : Nat, j2 < 2 →
      (0 : Int) + i * 2 + j * 1 = 0 + i2 * 2 + j2 * 1 → i = i2 ∧ j = j2 := by
    intro i hi j hj i2 hi2 j2 hj2 heq
    omega
  exact ⟨hinj,
    (claim_C4 (force.vector_view.mk 0 2 1) 3 (listMem [1, 2, 3, 4])
      (force.matrix_view.mk 2 1 0 2 2) hinj).2.2.2.1 1 (by decide) 0 (by decide)⟩

/-- Claim C8 (confirmed).  Round-tripping an owning container through its
view is the identity on the stored elements: for `force::vector`, copying
`c.view()` (base, stride 1, length N) back in reproduces the list; for
`force::matrix`, `copy_view` over `c.view()` (row-major, `dy = N, dx = 1`)
reproduces the backing list, for every shape `M × N` — in particular for
size 1 and for 1×4, 3×1 and 4×4. -/
theorem claim_C8 :
    (∀ l : List Int, force.vectorOfView (force.vectorNView 0 l.length) (listMem l) = l) ∧
    (∀ (M N : Nat) (l : List Int), l.length = M * N →
      force.matrixOfView (force.matrixMNView 0 M N) (listMem l) = l) := by
  constructor
  · intro l
    apply List.ext_getElem
    · simp [force.vectorOfView, force.vectorNView, force.vector_view.make]
    · intro k h1 h2
      simp only [force.vectorOfView, List.getElem_map, List.getElem_range]
      rw [show (force.vectorNView 0 l.length).subscriptAddr (k : Int) = (k : Int) by
        simp [force.vectorNView, vector_view.make, vector_view.subscriptAddr]]
      exact listMem_getElem l k h2
  · intro M N l hlen
    have key : ∀ i j : Nat,
        (force.matrixMNView 0 M N).mPtr + (i : Int) * (force.matrixMNView 0 M N).mDeltaY
            + (j : Int) * (force.matrixMNView 0 M N).mDeltaX =
          ((i * N + j : Nat) : Int) := by
      intro i j
      simp only [force.matrixMNView, matrix_view.make]
      push_cast
      ring
    simp only [force.matrixOfView, key]
    rw [show (force.matrixMNView 0 M N).mHeight = M from rfl,
      show (force.matrixMNView 0 M N).mWidth = N from rfl,
      range_flatMap_rows M N (fun k => listMem l (k : Int))]
    apply List.ext_getElem
    · simpa using hlen.symm
    · intro k h1 h2
      simp only [List.getElem_map, List.getElem_range]
      exact listMem_getElem l k h2

/-- Witness for C8 on the 2×2 shape over `[1, 2, 3, 4]`. -/
theorem claim_C8_witness :
    ([1, 2, 3, 4] : List Int).length = 2 * 2 ∧
    force.matrixOfView (force.matrixMNView 0 2 2) (listMem [1, 2, 3, 4]) = [1, 2, 3, 4] :=
  ⟨by decide, claim_C8.2 2 2 [1, 2, 3, 4] (by decide)⟩

/-- Claim C9 counterexample.  The characterization "after `v += w` the cell
`v.data()[i]` equals its old value plus `w[i]`" fails for overlapping
views, because the loop reads `w[i]` after earlier iterations already wrote
into the overlap: with `v = (base 0, len 2, stride 1)`,
`w = (base 1, len 2, stride -1)` over `[5, 7]`, the final cell 1 holds
`7 + (5 + 7) = 19`, not `7 + 5 = 12`. -/
theorem claim_C9_cex :
    ((force.vector_view.mk 0 2 1).subAssignV (force.vector_view.mk 1 2 (-1))
        (listMem [5, 7])).2 ((force.vector_view.mk 0 2 1).mPtr + 1) = 19 ∧
    listMem [5, 7] ((force.vector_view.mk 0 2 1).mPtr + 1) +
      listMem [5, 7] ((force.vector_view.mk 1 2 (-1)).subscriptAddr 1) = 12 ∧
    (19 : Int) ≠ 12 := by decide

/-- Claim C9 (corrected).  The four view-argument compound assignments of
`vector_view` run the identical loop `mPtr[i] += v[i]`, so `-=`, `*=` and
`/=` are extensionally equal to `+=` on every input (and none mutates the
view's fields); and when no source cell `w[i2]` aliases a destination cell
written earlier in the loop, each destination cell `v.data()[i]` ends at
its old value plus the old `w[i]`. -/
theorem claim_C9 (v w : force.vector_view) (m : Mem) (i : Nat)
    (hi : i < v.mLength)
    (hsep : ∀ i2 : Nat, i2 < v.mLength → ∀ j : Nat, j < i2 →
      w.subscriptAddr i2 ≠ v.mPtr + j) :
    (v.subAssignV w m).2 = (v.addAssignV w m).2 ∧
    (v.mulAssignV w m).2 = (v.addAssignV w m).2 ∧
    (v.divAssignV w m).2 = (v.addAssignV w m).2 ∧
    (v.subAssignV w m).1 = v ∧
    (v.subAssignV w m).2 (v.mPtr + i) = m (v.mPtr + i) + m (w.subscriptAddr i) := by
  refine ⟨subAssignLoop_eq_addAssignLoop v w v.mLength m,
    mulAssignLoop_eq_addAssignLoop v w v.mLength m,
    divAssignLoop_eq_addAssignLoop v w v.mLength m, rfl, ?_⟩
  rw [show (v.subAssignV w m).2 = subAssignLoop v w v.mLength m from rfl,
    subAssignLoop_eq_addAssignLoop]
  exact addAssignLoop_spec v w v.mLength m i hi hsep

/-- Witness for C9 with disjoint views `v = (0, 2, 1)`, `w = (10, 2, 1)`
over `[5, 7]` at `i = 1`. -/
theorem claim_C9_witness :
    ((1 : Nat) < (force.vector_view.mk 0 2 1).mLength ∧
      (∀ i2 : Nat, i2 < (force.vector_view.mk 0 2 1).mLength → ∀ j : Nat, j < i2 →
        (force.vector_view.mk 10 2 1).subscriptAddr i2 ≠ (force.vector_view.mk 0 2 1).mPtr + j)) ∧
    ((force.vector_view.mk 0 2 1).subAssignV (force.vector_view.mk 10 2 1)
        (listMem [5, 7])).2 ((force.vector_view.mk 0 2 1).mPtr + (1 : Nat)) =
      listMem [5, 7] ((force.vector_view.mk 0 2 1).mPtr + (1 : Nat)) +
      listMem [5, 7] ((force.vector_view.mk 10 2 1).subscriptAddr (1 : Nat)) :=
  ⟨⟨by decide, by decide⟩,
    (claim_C9 (force.vector_view.mk 0 2 1) (force.vector_view.mk 10 2 1)
      (listMem [5, 7]) 1 (by decide) (by decide)).2.2.2.2⟩

/-- Claim C10 (confirmed).  `back()` returns the cell one past the last
logical element: `vector_view::back()` dereferences `end()`, the address
`base + stride*length` (distinct from every logical cell when the stride is
nonzero, and exactly one stride past the last element), and
`vector<Ty,N>::back()` / `matrix<Ty,M,N>::back()` read `mData[N]` /
`mData[M*N]`, an address the container does not own. -/
theorem claim_C10 (v : force.vector_view) (cv : force.vectorN) (cm : force.matrixMN)
    (hd : v.mDelta ≠ 0) :
    v.backAddr = v.mPtr + v.mDelta * v.mLength ∧
    (∀ k : Nat, k < v.mLength → v.backAddr ≠ v.subscriptAddr k) ∧
    v.backAddr = v.subscriptAddr ((v.mLength : Int) - 1) + v.mDelta ∧
    cv.backAddr = cv.base + cv.dims ∧
    ¬ cv.owns cv.backAddr ∧
    cv.backAddr = cv.lastAddr + 1 ∧
    cm.backAddr = cm.base + (cm.rowsM * cm.colsN : Nat) ∧
    ¬ cm.owns cm.backAddr := by
  refine ⟨rfl, fun k hk heq => ?_, ?_, rfl, ?_, ?_, rfl, ?_⟩
  · simp only [force.vector_view.backAddr, force.vector_view.endIt,
      force.vector_view.beginIt, force.vector_iterator.add,
      force.vector_view.subscriptAddr] at heq
    have h1 : v.mDelta * ((v.mLength : Int) - (k : Int)) = 0 := by
      linear_combination heq
    rcases mul_eq_zero.mp h1 with h | h
    · exact hd h
    · have hk2 : (k : Int) < (v.mLength : Int) := by exact_mod_cast hk
      omega
  · simp only [force.vector_view.backAddr, force.vector_view.endIt,
      force.vector_view.beginIt, force.vector_iterator.add,
      force.vector_view.subscriptAddr]
    ring
  · simp only [force.vectorN.owns, force.vectorN.backAddr]
    omega
  · simp only [force.vectorN.backAddr, force.vectorN.lastAddr]
    ring
  · simp only [force.matrixMN.owns, force.matrixMN.backAddr]
    omega

/-- Witness for C10 with the view `(base 0, length 2, stride 3)`, a
4-element vector container and a 2×3 matrix container at base 0. -/
theorem claim_C10_witness :
    ((force.vector_view.mk 0 2 3).mDelta ≠ 0) ∧
    (force.vector_view.mk 0 2 3).backAddr =
      (force.vector_view.mk 0 2 3).mPtr +
        (force.vector_view.mk 0 2 3).mDelta * (force.vector_view.mk 0 2 3).mLength :=
  ⟨by decide,
    (claim_C10 (force.vector_view.mk 0 2 3) (force.vectorN.mk 0 4)
      (force.matrixMN.mk 0 2 3) (by decide)).1⟩
